import Mathlib

/-!
Verification of the Disaster-Mesh-Network core against its specification.

The Python sources are shallowly embedded: Python dicts become association
lists with insertion-order semantics (`getA` / `setA`), Python ints become
`Int` or `Nat` as the values demand, Python floats (link latencies and
Dijkstra distances) become `Rat` (exact rationals; all comparisons the
code performs are order comparisons on nonnegative values, where rationals
and IEEE doubles agree), byte strings become `List Nat`, and the
third-party crypto primitives (AES-CBC under the derived key, base64) are
abstracted as function parameters constrained by their defining inverse
properties.
-/

/-- Lookup in an association list modelling a Python dict: the value bound
to the first occurrence of the key (dict keys are unique, so the first
occurrence is the only one). Models `d.get(k)` / `k in d`. -/
def getA {α β : Type} [DecidableEq α] : List (α × β) → α → Option β
  | [], _ => none
  | (k1, v) :: t, k => if k1 = k then some v else getA t k

/-- Store in an association list modelling a Python dict: `d[k] = v`
replaces the binding in place if the key is present, else appends it,
preserving dict insertion order. -/
def setA {α β : Type} [DecidableEq α] : List (α × β) → α → β → List (α × β)
  | [], k, v => [(k, v)]
  | (k1, v1) :: t, k, v => if k1 = k then (k, v) :: t else (k1, v1) :: setA t k v

/-- Models Python `d[k]` at call sites where the surrounding code
guarantees the key is present (a `KeyError` is unreachable there);
the default is never produced in the runs we reason about. -/
def dGetD {α β : Type} [DecidableEq α] (l : List (α × β)) (k : α) (d : β) : β :=
  (getA l k).getD d

/-! ## The message envelope and the receive handler (mesh_node.py) -/

/-- The `Message` dataclass of mesh_node.py. `payload` is the (possibly
encrypted) payload string; `ttl` is a Python int, so `Int`. -/
structure Message where
  msg_id : String
  source_id : String
  dest_id : String
  payload : String
  timestamp : Int
  ttl : Int
  msg_type : String
  route : List String
deriving DecidableEq, Repr

/-- `MeshNode.MAX_TTL`. -/
def MAX_TTL : Int := 20

/-- Outcome of one `_handle_client` run, after the envelope has been
parsed: the mutually exclusive branches of the Python if/else chain.
`deliver` carries the message handed to `_trigger_callbacks`; `forward`
carries the message handed to `_forward_message`. -/
inductive RecvAction where
  | drop : RecvAction
  | deliver : Message → RecvAction
  | forward : Message → RecvAction
deriving DecidableEq, Repr

/-- `MeshNode._handle_client` (mesh_node.py lines 206-236), from the point
where the envelope has been parsed from the wire. `dec` models
`self.crypto.decrypt` (`none` = the decrypt raised, message dropped);
`cache` is `self.message_cache`. Returns the action taken and the updated
duplicate cache. -/
def handleClient (localId : String) (dec : String → Option String)
    (cache : List String) (m : Message) : RecvAction × List String :=
  if m.msg_id ∈ cache then (RecvAction.drop, cache)
  else
    match dec m.payload with
    | none => (RecvAction.drop, m.msg_id :: cache)
    | some p =>
      let m1 : Message := { m with payload := p, route := m.route ++ [localId] }
      if m1.dest_id = localId ∨ m1.dest_id = "broadcast" then
        (RecvAction.deliver m1, m.msg_id :: cache)
      else if 0 < m1.ttl then
        (RecvAction.forward { m1 with ttl := m1.ttl - 1 }, m.msg_id :: cache)
      else
        (RecvAction.drop, m.msg_id :: cache)

/-- The envelope built by `MeshNode.send_message` (mesh_node.py lines
255-277). `enc` models `self.crypto.encrypt`; `msgId` and `ts` stand for
the fresh `uuid.uuid4()` and `time.time()`. -/
def sendMessage (localId msgId : String) (enc : String → String)
    (destId payload msgType : String) (ts : Int) : Message :=
  { msg_id := msgId
    source_id := localId
    dest_id := destId
    payload := enc payload
    timestamp := ts
    ttl := MAX_TTL
    msg_type := msgType
    route := [localId] }

/-! ## Trust ledger (auth_system.py, class TrustManager) -/

/-- In-memory state of `TrustManager`: `trusted_nodes : {node_id:
public_key_b64}` and `trust_scores : {node_id: score}` (persistence to
disk is I/O and not modelled). -/
structure TrustState where
  trusted_nodes : List (String × String)
  trust_scores : List (String × Int)
deriving DecidableEq, Repr

/-- `TrustManager.add_trusted_node` (auth_system.py lines 245-258). -/
def addTrustedNode (t : TrustState) (node_id pk : String) (initial_score : Int) : TrustState :=
  { trusted_nodes := setA t.trusted_nodes node_id pk
    trust_scores := setA t.trust_scores node_id initial_score }

/-- `TrustManager.is_trusted` (auth_system.py lines 260-274): False when
the id is not a key of `trusted_nodes`, else `trust_scores.get(id, 0) >=
min_score`. -/
def isTrusted (t : TrustState) (node_id : String) (min_score : Int) : Bool :=
  match getA t.trusted_nodes node_id with
  | none => false
  | some _ => decide (min_score ≤ dGetD t.trust_scores node_id 0)

/-- `TrustManager.update_trust_score` (auth_system.py lines 276-292): a
missing id is first initialised to 50, then the score is set to
`max(0, min(100, old + delta))`. -/
def updateTrustScore (t : TrustState) (node_id : String) (delta : Int) : TrustState :=
  let scores0 := if (getA t.trust_scores node_id).isSome then t.trust_scores
    else setA t.trust_scores node_id 50
  let newScore := max 0 (min 100 (dGetD scores0 node_id 0 + delta))
  { t with trust_scores := setA scores0 node_id newScore }

/-! ## Secure receive handler (secure_mesh_node.py) -/

/-- `SecureMeshNode._handle_client` (secure_mesh_node.py lines 107-187),
from the point where the envelope has been parsed. `verify` models
`auth_manager.verify_signature` on the decrypted payload (`none` =
invalid; `some (cleartext, signer_id)` = valid); `blobPk` models
`json.loads(decrypted_payload).get('public_key')`. Returns the action,
the updated trust state, and the updated duplicate cache. -/
def secureHandleClient (localId : String) (enableAuth : Bool)
    (verify : String → Option (String × String)) (blobPk : String → Option String)
    (dec : String → Option String) (trust : TrustState)
    (cache : List String) (m : Message) : RecvAction × TrustState × List String :=
  if m.msg_id ∈ cache then (RecvAction.drop, trust, cache)
  else
    match dec m.payload with
    | none => (RecvAction.drop, trust, m.msg_id :: cache)
    | some p =>
      let authRes : Option (String × TrustState) :=
        if enableAuth then
          match verify p with
          | none => none
          | some (orig, signer) =>
            if signer ≠ m.source_id then none
            else
              let t1 := updateTrustScore trust m.source_id 1
              let t2 := if ¬ (isTrusted t1 m.source_id 0) then
                  match blobPk p with
                  | some pk => addTrustedNode t1 m.source_id pk 50
                  | none => t1
                else t1
              some (orig, t2)
        else some (p, trust)
      let authFail : TrustState :=
        if enableAuth then
          match verify p with
          | none => updateTrustScore trust m.source_id (-20)
          | some (_, signer) =>
            if signer ≠ m.source_id then updateTrustScore trust m.source_id (-30)
            else trust
        else trust
      match authRes with
      | none => (RecvAction.drop, authFail, m.msg_id :: cache)
      | some (pl, t) =>
        let m1 : Message := { m with payload := pl, route := m.route ++ [localId] }
        if m1.dest_id = localId ∨ m1.dest_id = "broadcast" then
          (RecvAction.deliver m1, t, m.msg_id :: cache)
        else if 0 < m1.ttl then
          if enableAuth ∧ ¬ (isTrusted t m.source_id 20) then
            (RecvAction.drop, t, m.msg_id :: cache)
          else
            (RecvAction.forward { m1 with ttl := m1.ttl - 1 }, t, m.msg_id :: cache)
        else
          (RecvAction.drop, t, m.msg_id :: cache)

/-! ## File transfer (file_transfer.py) -/

/-- The `FileChunk` dataclass. `data` is carried on the wire as base64
text; since `process_chunk` immediately decodes it, it is modelled here by
its decoded byte content (base64 is a stdlib bijection on valid input). -/
structure FileChunk where
  file_id : String
  filename : String
  chunk_index : Nat
  total_chunks : Nat
  data : List Nat
  file_size : Nat
deriving DecidableEq, Repr

/-- The `FileTransferState` dataclass; `received_chunks` is the
`{index: bytes}` dict. -/
structure FileTransferState where
  file_id : String
  filename : String
  total_chunks : Nat
  received_chunks : List (Nat × List Nat)
  file_size : Nat
  complete : Bool
deriving DecidableEq, Repr

/-- The bytes `_save_complete_file` writes (file_transfer.py lines
171-175): chunks concatenated in ascending index order, indices missing
from the dict skipped. -/
def savedContent (st : FileTransferState) : List Nat :=
  (List.range st.total_chunks).flatMap fun i => (getA st.received_chunks i).getD []

/-- `FileTransferManager.process_chunk` (file_transfer.py lines 107-149)
followed, in the completion branch, by `_save_complete_file` (lines
151-184). Returns the boolean result, the updated `transfer_states` map,
and `some (filename, bytes)` when `_save_complete_file` ran, i.e. when a
file was written to disk and the completion callbacks fired. -/
def processChunk (states : List (String × FileTransferState)) (chunk : FileChunk) :
    Bool × List (String × FileTransferState) × Option (String × List Nat) :=
  let states0 := if (getA states chunk.file_id).isSome then states
    else setA states chunk.file_id
      { file_id := chunk.file_id, filename := chunk.filename,
        total_chunks := chunk.total_chunks, received_chunks := [],
        file_size := chunk.file_size, complete := false }
  let st := (getA states0 chunk.file_id).getD
    { file_id := chunk.file_id, filename := chunk.filename,
      total_chunks := chunk.total_chunks, received_chunks := [],
      file_size := chunk.file_size, complete := false }
  let st1 := { st with received_chunks := setA st.received_chunks chunk.chunk_index chunk.data }
  if st1.received_chunks.length = st1.total_chunks then
    (true, setA states0 chunk.file_id { st1 with complete := true },
      some (st1.filename, savedContent st1))
  else
    (false, setA states0 chunk.file_id st1, none)

/-! ## Crypto round-trip (crypto_utils.py, class CryptoManager) -/

/-- The PKCS#7 padding computed inline in `CryptoManager.encrypt`
(crypto_utils.py lines 40-42): `padding_length = 16 - len % 16` bytes,
each equal to `padding_length`. -/
def pkcs7pad (pt : List Nat) : List Nat :=
  pt ++ List.replicate (16 - pt.length % 16) (16 - pt.length % 16)

/-- `CryptoManager.encrypt` (crypto_utils.py lines 23-48) at the byte
level (the plaintext argument is the UTF-8 encoding of the input string).
`cipherEnc iv p` abstracts `AES.new(key, MODE_CBC, iv).encrypt(p)` under
the PBKDF2-derived key; `b64encode` abstracts `base64.b64encode`. -/
def encryptBytes (cipherEnc : List Nat → List Nat → List Nat)
    (b64encode : List Nat → List Nat) (iv pt : List Nat) : List Nat :=
  b64encode (iv ++ cipherEnc iv (pkcs7pad pt))

/-- `CryptoManager.decrypt` (crypto_utils.py lines 50-78) at the byte
level: base64-decode, split the 16-byte IV, CBC-decrypt, then strip
`padded[-1]` trailing bytes (Python `padded[:-p]`; `p = 0` yields the
empty slice). `none` models the raised `ValueError` (empty plaintext
indexed at `[-1]`). -/
def decryptBytes (cipherDec : List Nat → List Nat → List Nat)
    (b64decode : List Nat → List Nat) (ct : List Nat) : Option (List Nat) :=
  let data := b64decode ct
  let iv := data.take 16
  let body := data.drop 16
  let padded := cipherDec iv body
  match padded.getLast? with
  | none => none
  | some p => some (if p = 0 then [] else padded.take (padded.length - p))

/-! ## Link-state router (message_router.py) -/

/-- The `NodeInfo` dataclass of mesh_node.py. -/
structure NodeInfo where
  node_id : String
  ip_address : String
  port : Nat
  last_seen : Rat
  hostname : String
deriving DecidableEq, Repr

/-- The `RouteInfo` dataclass of message_router.py. Latencies (Python
floats) are modelled as rationals. -/
structure RouteInfo where
  destination : String
  next_hop : String
  hop_count : Nat
  total_latency : Rat
deriving DecidableEq, Repr

/-- Adjacency-list graph `{node: [(neighbor, weight)]}` as built by
`update_topology`. -/
def Graph : Type := List (String × List (String × Rat))

/-- The body of the graph-construction loop of
`MessageRouter.update_topology` (message_router.py lines 41-49): append
the forward edge to `graph[node_id]`, create the neighbor's entry when
absent, and append the reverse edge. -/
def graphStep (node_id : String) (link_latencies : List ((String × String) × Rat))
    (g : Graph) (node : NodeInfo) : Graph :=
  let latency := (getA link_latencies (node_id, node.node_id)).getD 1
  let g1 := setA g node_id ((getA g node_id).getD [] ++ [(node.node_id, latency)])
  let g2 := if (getA g1 node.node_id).isSome then g1 else setA g1 node.node_id []
  setA g2 node.node_id ((getA g2 node.node_id).getD [] ++ [(node_id, latency)])

/-- The graph construction of `MessageRouter.update_topology`
(message_router.py lines 36-49): start from `{node_id: []}` and run
`graphStep` over the known nodes. -/
def buildGraph (node_id : String) (known_nodes : List NodeInfo)
    (link_latencies : List ((String × String) × Rat)) : Graph :=
  known_nodes.foldl (graphStep node_id link_latencies) [(node_id, [])]

/-- State of the Dijkstra loop in `MessageRouter._compute_routes`:
`distances`, `hop_counts`, `previous` and the priority queue `pq`. -/
structure DijkstraState where
  distances : List (String × Rat)
  hop_counts : List (String × Nat)
  previous : List (String × Option String)
  pq : List (Rat × String)
deriving Repr

/-- The `heapq` ordering on pq entries: lexicographic on the
`(distance, node_id)` tuple, as Python compares tuples. -/
def pqLeB (x y : Rat × String) : Bool :=
  decide (x.1 < y.1) || (decide (x.1 = y.1) && decide (x.2 ≤ y.2))

/-- `heapq.heappop`: remove and return the least entry of the queue
(modelled on a plain list; the heap is an implementation detail of the
ordering). `none` when the queue is empty. -/
def popMin : List (Rat × String) → Option ((Rat × String) × List (Rat × String))
  | [] => none
  | x :: t =>
    match popMin t with
    | none => some (x, [])
    | some (m, r) => if pqLeB x m then some (x, t) else some (m, x :: r)

/-- One relaxation of the inner `for neighbor, weight in graph.get(...)`
loop of `_compute_routes` (message_router.py lines 83-92): if
`current_dist + weight` beats the recorded distance (absent = infinity),
update `distances`, `hop_counts`, `previous` and push onto the queue. -/
def relax (u : String) (d : Rat) (s : DijkstraState)
    (e : String × Rat) : DijkstraState :=
  let dist := d + e.2
  let hop := dGetD s.hop_counts u 0 + 1
  let upd : DijkstraState :=
    { distances := setA s.distances e.1 dist
      hop_counts := setA s.hop_counts e.1 hop
      previous := setA s.previous e.1 (some u)
      pq := s.pq ++ [(dist, e.1)] }
  match getA s.distances e.1 with
  | some dv => if dist < dv then upd else s
  | none => upd

/-- All relaxations for the popped node `u` at distance `d`. -/
def processNode (gr : Graph) (u : String) (d : Rat) (s : DijkstraState) : DijkstraState :=
  ((getA gr u).getD []).foldl (relax u d) s

/-- The `while pq:` loop of `_compute_routes` (message_router.py lines
75-92). `fuel` bounds the number of pops; every call below passes enough
fuel for the loop to drain its queue, which the theorems establish. A
popped node whose recorded distance beats its queued distance is skipped
(the `continue` for stale heap entries; an absent distance compares as
infinity, so it is not skipped). -/
def dijkstraLoop (gr : Graph) : Nat → DijkstraState → DijkstraState
  | 0, s => s
  | Nat.succ fuel, s =>
    match popMin s.pq with
    | none => s
    | some ((d, u), rest) =>
      let s1 : DijkstraState := { s with pq := rest }
      match getA s.distances u with
      | some du =>
        if du < d then dijkstraLoop gr fuel s1
        else dijkstraLoop gr fuel (processNode gr u d s1)
      | none => dijkstraLoop gr fuel (processNode gr u d s1)

/-- `previous.get(current)`: Python returns `None` both when the key is
absent and when the stored predecessor is `None` (the source entry). -/
def pGet (previous : List (String × Option String)) (k : String) : Option String :=
  match getA previous k with
  | some v => v
  | none => none

/-- The backward walk of `MessageRouter._find_next_hop` (message_router.py
lines 131-138): step to the predecessor until the node whose predecessor
is the source is reached; `none` when the chain dies out. `fuel` bounds
the walk; it exceeds the chain length for every predecessor map built
below. -/
def walkBack (source : String) (previous : List (String × Option String)) :
    Nat → String → Option String
  | 0, _ => none
  | Nat.succ f, current =>
    if pGet previous current = some source then some current
    else
      match pGet previous current with
      | none => none
      | some c => walkBack source previous f c

/-- `MessageRouter._find_next_hop` (message_router.py lines 114-138). -/
def findNextHop (source destination : String)
    (previous : List (String × Option String)) : Option String :=
  match getA previous destination with
  | none => none
  | some _ => walkBack source previous (previous.length + 1) destination

/-- The body of the table-construction loop of `_compute_routes`
(message_router.py lines 97-110): skip the source, look up the next hop,
and record a `RouteInfo` when one exists. -/
def tableStep (source : String) (hop : List (String × Nat))
    (previous : List (String × Option String))
    (table : List (String × RouteInfo)) (p : String × Rat) : List (String × RouteInfo) :=
  if p.1 = source then table
  else
    match findNextHop source p.1 previous with
    | some nh => setA table p.1
        { destination := p.1, next_hop := nh,
          hop_count := dGetD hop p.1 0, total_latency := p.2 }
    | none => table

def buildTable (source : String) (dist : List (String × Rat))
    (hop : List (String × Nat)) (previous : List (String × Option String)) :
    List (String × RouteInfo) :=
  dist.foldl (tableStep source hop previous) []

/-- `MessageRouter._compute_routes` (message_router.py lines 54-112):
Dijkstra from `source` starting with `distances={source: 0}`,
`hop_counts={source: 0}`, `previous={source: None}`, `pq=[(0, source)]`,
then the table construction. -/
def computeRoutes (fuel : Nat) (source : String) (gr : Graph) : List (String × RouteInfo) :=
  let init : DijkstraState :=
    { distances := [(source, 0)], hop_counts := [(source, 0)],
      previous := [(source, none)], pq := [(0, source)] }
  let final := dijkstraLoop gr fuel init
  buildTable source final.distances final.hop_counts final.previous

/-- `MessageRouter.update_topology` (message_router.py lines 28-52):
rebuild the graph and recompute the routing table. The fuel
`known_nodes.length + 2` strictly exceeds the number of pops the loop
performs on the star graphs this call builds (proved below). -/
def updateTopology (node_id : String) (known_nodes : List NodeInfo)
    (link_latencies : List ((String × String) × Rat)) : List (String × RouteInfo) :=
  computeRoutes (known_nodes.length + 2) node_id
    (buildGraph node_id known_nodes link_latencies)

/-- An edge of the constructed adjacency graph. -/
def hasEdge (gr : Graph) (u v : String) (w : Rat) : Prop :=
  (v, w) ∈ (getA gr u).getD []

/-- Cost of a path in the graph: `PathCost gr u t c` holds when there is
a walk from `u` to `t` whose edge weights sum to `c`. Shortest-path
distance statements are phrased with it. -/
inductive PathCost (gr : Graph) : String → String → Rat → Prop
  | nil (u : String) : PathCost gr u u 0
  | cons {u v t : String} {w c : Rat} :
      hasEdge gr u v w → PathCost gr v t c → PathCost gr u t (w + c)

/-! ## Specification-side helpers for the router theorems -/

/-- The latency `update_topology` assigns to the link `local -> v`:
the overlay value when present, else the 1.0 default. -/
def wOf (lat : List ((String × String) × Rat)) (node_id v : String) : Rat :=
  (getA lat (node_id, v)).getD 1

/-- The edge list `graph[node_id]` that the construction loop produces. -/
def starEdges (node_id : String) (known : List NodeInfo)
    (lat : List ((String × String) × Rat)) : List (String × Rat) :=
  known.map fun nd => (nd.node_id, wOf lat node_id nd.node_id)

/-- The star-shaped graph `update_topology` builds around the local node
(proved below to equal `buildGraph` on duplicate-free neighbor lists). -/
def starGraph (node_id : String) (known : List NodeInfo)
    (lat : List ((String × String) × Rat)) : Graph :=
  (node_id, starEdges node_id known lat)
    :: known.map fun nd => (nd.node_id, [(node_id, wOf lat node_id nd.node_id)])

/-- The Dijkstra state after the source has been popped and the first
`done` of its edges relaxed (the loop invariant of the source pass). -/
def starStateAfter (node_id : String) (lat : List ((String × String) × Rat))
    (done : List NodeInfo) : DijkstraState :=
  { distances := (node_id, 0) :: done.map fun nd => (nd.node_id, wOf lat node_id nd.node_id)
    hop_counts := (node_id, 0) :: done.map fun nd => (nd.node_id, 1)
    previous := (node_id, none) :: done.map fun nd => (nd.node_id, some node_id)
    pq := done.map fun nd => (wOf lat node_id nd.node_id, nd.node_id) }

theorem getA_setA_self {α β : Type} [DecidableEq α] (l : List (α × β)) (k : α) (v : β) :
    getA (setA l k v) k = some v := by
  induction l with
  | nil => simp [getA, setA]
  | cons h t ih =>
    obtain ⟨k1, v1⟩ := h
    by_cases hk : k1 = k
    · simp [getA, setA, hk]
    · simp [getA, setA, hk, ih]

theorem getA_setA_ne {α β : Type} [DecidableEq α] (l : List (α × β)) (k k2 : α) (v : β)
    (hne : k ≠ k2) : getA (setA l k v) k2 = getA l k2 := by
  induction l with
  | nil => simp [getA, setA, hne]
  | cons h t ih =>
    obtain ⟨k1, v1⟩ := h
    by_cases hk : k1 = k
    · subst hk
      simp [getA, setA, hne]
    · simp [getA, setA, hk, ih]

theorem setA_absent {α β : Type} [DecidableEq α] (l : List (α × β)) (k : α) (v : β)
    (h : getA l k = none) : setA l k v = l ++ [(k, v)] := by
  induction l with
  | nil => simp [setA]
  | cons hd t ih =>
    obtain ⟨k1, v1⟩ := hd
    by_cases hk : k1 = k
    · simp [getA, hk] at h
    · simp [getA, hk] at h
      simp [setA, hk, ih h]

theorem setA_same {α β : Type} [DecidableEq α] (l : List (α × β)) (k : α) (v : β)
    (h : getA l k = some v) : setA l k v = l := by
  induction l with
  | nil => simp [getA] at h
  | cons hd t ih =>
    obtain ⟨k1, v1⟩ := hd
    by_cases hk : k1 = k
    · subst hk
      simp [getA] at h
      simp [setA, h]
    · simp [getA, hk] at h
      simp [setA, hk, ih h]

theorem getA_append_left {α β : Type} [DecidableEq α] (l1 l2 : List (α × β)) (k : α) (v : β)
    (h : getA l1 k = some v) : getA (l1 ++ l2) k = some v := by
  induction l1 with
  | nil => simp [getA] at h
  | cons hd t ih =>
    obtain ⟨k1, v1⟩ := hd
    by_cases hk : k1 = k
    · simp [getA, hk] at h ⊢
      exact h
    · simp [getA, hk] at h ⊢
      exact ih h

theorem getA_append_right {α β : Type} [DecidableEq α] (l1 l2 : List (α × β)) (k : α)
    (h : getA l1 k = none) : getA (l1 ++ l2) k = getA l2 k := by
  induction l1 with
  | nil => simp
  | cons hd t ih =>
    obtain ⟨k1, v1⟩ := hd
    by_cases hk : k1 = k
    · simp [getA, hk] at h
    · simp [getA, hk] at h ⊢
      exact ih h

theorem getA_eq_none_of_not_mem {α β : Type} [DecidableEq α] (l : List (α × β)) (k : α)
    (h : k ∉ l.map Prod.fst) : getA l k = none := by
  induction l with
  | nil => simp [getA]
  | cons hd t ih =>
    obtain ⟨k1, v1⟩ := hd
    have h1 : k1 ≠ k := by
      intro hh
      exact h (by simp [hh])
    have h2 : k ∉ t.map Prod.fst := by
      intro hh
      exact h (by simp [hh])
    simp [getA, h1, ih h2]

theorem setA_append_last {α β : Type} [DecidableEq α] (l : List (α × β)) (k : α) (v v2 : β)
    (h : getA l k = none) : setA (l ++ [(k, v)]) k v2 = l ++ [(k, v2)] := by
  induction l with
  | nil => simp [setA]
  | cons hd t ih =>
    obtain ⟨k1, v1⟩ := hd
    by_cases hk : k1 = k
    · simp [getA, hk] at h
    · simp [getA, hk] at h
      simp [setA, hk, ih h]

/-! ## Trust ledger theorems (C5, C6, C9, C10) -/

theorem updateTrustScore_trusted_nodes (t : TrustState) (node_id : String) (delta : Int) :
    (updateTrustScore t node_id delta).trusted_nodes = t.trusted_nodes := rfl

theorem updateTrustScore_score (t : TrustState) (node_id : String) (delta : Int) :
    getA (updateTrustScore t node_id delta).trust_scores node_id
      = some (max 0 (min 100 ((getA t.trust_scores node_id).getD 50 + delta))) := by
  unfold updateTrustScore
  cases h : getA t.trust_scores node_id with
  | none => simp [h, dGetD, getA_setA_self]
  | some v => simp [h, dGetD, getA_setA_self]

/-- C6: after `update_trust_score(id, delta)` the stored score of `id` is
exactly `max(0, min(100, old + delta))` (where the old score defaults to
50 when the id was absent), and that value lies in `[0, 100]`. -/
theorem trust_score_clamped (t : TrustState) (node_id : String) (delta : Int) :
    getA (updateTrustScore t node_id delta).trust_scores node_id
      = some (max 0 (min 100 ((getA t.trust_scores node_id).getD 50 + delta)))
    ∧ 0 ≤ max 0 (min 100 ((getA t.trust_scores node_id).getD 50 + delta))
    ∧ max 0 (min 100 ((getA t.trust_scores node_id).getD 50 + delta)) ≤ 100 := by
  refine ⟨updateTrustScore_score t node_id delta, ?_, ?_⟩ <;> omega

/-- C9: updating the score of an id absent from `trust_scores` first
initialises it to 50 and then applies the clamped delta, so the result is
`max(0, min(100, 50 + delta))`; in particular the `-20` penalty for an
invalid signature from a never-before-seen sender leaves score 30. -/
theorem trust_update_missing_defaults_50 (t : TrustState) (node_id : String) (delta : Int)
    (h : getA t.trust_scores node_id = none) :
    getA (updateTrustScore t node_id delta).trust_scores node_id
      = some (max 0 (min 100 (50 + delta))) := by
  have h2 := updateTrustScore_score t node_id delta
  rw [h] at h2
  simpa using h2

/-- Witness for C9: on an empty ledger, the `-20` penalty leaves the
sender with score 30, not 0. -/
theorem trust_update_missing_defaults_50_witness :
    getA (TrustState.mk [] []).trust_scores "a" = none
    ∧ getA (updateTrustScore (TrustState.mk [] []) "a" (-20)).trust_scores "a" = some 30 := by
  refine ⟨rfl, ?_⟩
  have h := trust_update_missing_defaults_50 (TrustState.mk [] []) "a" (-20) rfl
  rw [h]
  decide

/-- C10: `is_trusted(id, min_score)` holds iff `id` is a key of
`trusted_nodes` AND its score in `trust_scores` (0 when missing) is at
least `min_score`; and `update_trust_score` never writes `trusted_nodes`,
so penalties or rewards alone never admit a node. -/
theorem is_trusted_membership_and_score (t : TrustState) (node_id : String)
    (min_score delta : Int) :
    (isTrusted t node_id min_score = true ↔
      ((getA t.trusted_nodes node_id).isSome
        ∧ min_score ≤ (getA t.trust_scores node_id).getD 0))
    ∧ (updateTrustScore t node_id delta).trusted_nodes = t.trusted_nodes := by
  refine ⟨?_, updateTrustScore_trusted_nodes t node_id delta⟩
  unfold isTrusted
  cases h : getA t.trusted_nodes node_id with
  | none => simp [h]
  | some pk => simp [h, dGetD]

/-- C5: the first successfully verified message from a sender absent from
`trusted_nodes` admits that sender with the public key carried inside the
signed blob and a trust score of exactly 50 (the +1 reward lands first,
but `add_trusted_node` overwrites the score with the initial 50). -/
theorem first_verified_peer_added (localId : String)
    (verify : String → Option (String × String)) (blobPk : String → Option String)
    (dec : String → Option String) (trust : TrustState) (cache : List String)
    (m : Message) (p orig pk : String)
    (hc : m.msg_id ∉ cache)
    (hdec : dec m.payload = some p)
    (hver : verify p = some (orig, m.source_id))
    (hpk : blobPk p = some pk)
    (hnew : getA trust.trusted_nodes m.source_id = none) :
    getA (secureHandleClient localId true verify blobPk dec trust cache m).2.1.trusted_nodes
        m.source_id = some pk
    ∧ getA (secureHandleClient localId true verify blobPk dec trust cache m).2.1.trust_scores
        m.source_id = some 50 := by
  have h1 : getA (updateTrustScore trust m.source_id 1).trusted_nodes m.source_id = none := by
    rw [updateTrustScore_trusted_nodes]
    exact hnew
  have hit : isTrusted (updateTrustScore trust m.source_id 1) m.source_id 0 = false := by
    unfold isTrusted
    rw [h1]
  unfold secureHandleClient
  simp only [hc, if_false, ite_false, hdec, hver, hpk, hit]
  simp only [ne_eq, not_true_eq_false, if_false, ite_false, Bool.false_eq_true,
    not_false_eq_true, if_true, ite_true]
  split
  · simp [addTrustedNode, getA_setA_self]
  · split
    · split
      · simp [addTrustedNode, getA_setA_self]
      · simp [addTrustedNode, getA_setA_self]
    · simp [addTrustedNode, getA_setA_self]

/-- Witness for C5 at a concrete two-node exchange. -/
theorem first_verified_peer_added_witness :
    getA (secureHandleClient "B" true (fun _ => some ("hello", "A")) (fun _ => some "PK")
        (fun s => some s) (TrustState.mk [] []) []
        (Message.mk "m1" "A" "B" "P" 0 20 "text" ["A"])).2.1.trusted_nodes "A" = some "PK"
    ∧ getA (secureHandleClient "B" true (fun _ => some ("hello", "A")) (fun _ => some "PK")
        (fun s => some s) (TrustState.mk [] []) []
        (Message.mk "m1" "A" "B" "P" 0 20 "text" ["A"])).2.1.trust_scores "A" = some 50 :=
  first_verified_peer_added "B" (fun _ => some ("hello", "A")) (fun _ => some "PK")
    (fun s => some s) (TrustState.mk [] []) []
    (Message.mk "m1" "A" "B" "P" 0 20 "text" ["A"]) "P" "hello" "PK"
    (by simp) rfl rfl rfl rfl

theorem mesh_step_cases (localId : String) (dec : String → Option String)
    (cache : List String) (m : Message) :
    (handleClient localId dec cache m).1 = RecvAction.drop
    ∨ (∃ p, (handleClient localId dec cache m).1
          = RecvAction.deliver { m with payload := p, route := m.route ++ [localId] })
    ∨ (0 < m.ttl ∧ ∃ p, (handleClient localId dec cache m).1
          = RecvAction.forward
              { m with payload := p, route := m.route ++ [localId], ttl := m.ttl - 1 }) := by
  unfold handleClient
  by_cases hcache : m.msg_id ∈ cache
  · simp [hcache]
  · cases hdec : dec m.payload with
    | none => simp [hcache, hdec]
    | some p =>
      by_cases hdest : m.dest_id = localId ∨ m.dest_id = "broadcast"
      · exact Or.inr (Or.inl ⟨p, by simp [hcache, hdec, hdest]⟩)
      · by_cases httl : 0 < m.ttl
        · exact Or.inr (Or.inr ⟨httl, p, by simp [hcache, hdec, hdest, httl]⟩)
        · simp [hcache, hdec, hdest, httl]

theorem secure_step_cases (localId : String) (enableAuth : Bool)
    (verify : String → Option (String × String)) (blobPk : String → Option String)
    (dec : String → Option String) (trust : TrustState)
    (cache : List String) (m : Message) :
    (secureHandleClient localId enableAuth verify blobPk dec trust cache m).1 = RecvAction.drop
    ∨ (∃ p, (secureHandleClient localId enableAuth verify blobPk dec trust cache m).1
          = RecvAction.deliver { m with payload := p, route := m.route ++ [localId] })
    ∨ (0 < m.ttl ∧ ∃ p,
        (secureHandleClient localId enableAuth verify blobPk dec trust cache m).1
          = RecvAction.forward
              { m with payload := p, route := m.route ++ [localId], ttl := m.ttl - 1 }) := by
  unfold secureHandleClient
  by_cases hcache : m.msg_id ∈ cache
  · simp [hcache]
  · cases hdec : dec m.payload with
    | none => simp [hcache, hdec]
    | some p =>
      cases enableAuth with
      | false =>
        by_cases hdest : m.dest_id = localId ∨ m.dest_id = "broadcast"
        · exact Or.inr (Or.inl ⟨p, by simp [hcache, hdec, hdest]⟩)
        · by_cases httl : 0 < m.ttl
          · exact Or.inr (Or.inr ⟨httl, p, by simp [hcache, hdec, hdest, httl]⟩)
          · simp [hcache, hdec, hdest, httl]
      | true =>
        cases hver : verify p with
        | none => simp [hcache, hdec, hver]
        | some pr =>
          obtain ⟨orig, signer⟩ := pr
          by_cases hsig : signer = m.source_id
          · by_cases hdest : m.dest_id = localId ∨ m.dest_id = "broadcast"
            · exact Or.inr (Or.inl ⟨orig, by simp [hcache, hdec, hver, hsig, hdest]⟩)
            · by_cases httl : 0 < m.ttl
              · by_cases hgate : isTrusted
                    (if isTrusted (updateTrustScore trust m.source_id 1) m.source_id 0 = false
                      then
                        match blobPk p with
                        | some pk => addTrustedNode (updateTrustScore trust m.source_id 1)
                            m.source_id pk 50
                        | none => updateTrustScore trust m.source_id 1
                      else updateTrustScore trust m.source_id 1) m.source_id 20 = false
                · simp [hcache, hdec, hver, hsig, hdest, httl, hgate]
                · exact Or.inr (Or.inr ⟨httl, orig,
                    by simp [hcache, hdec, hver, hsig, hdest, httl, hgate]⟩)
              · simp [hcache, hdec, hver, hsig, hdest, httl]
          · simp [hcache, hdec, hver, hsig]

/-- C3: in one receive step (plain and secure handler alike), the ttl
never increases; a delivery leaves it unchanged; a forward happens only
when the incoming ttl is positive and decrements it exactly once, so
starting from a nonnegative ttl no envelope is ever delivered or
forwarded with ttl below 0. -/
theorem ttl_monotone (localId : String) (dec : String → Option String)
    (cache : List String) (m : Message) (enableAuth : Bool)
    (verify : String → Option (String × String)) (blobPk : String → Option String)
    (trust : TrustState) (h : 0 ≤ m.ttl) :
    (∀ m1, (handleClient localId dec cache m).1 = RecvAction.deliver m1 →
        m1.ttl = m.ttl ∧ 0 ≤ m1.ttl)
    ∧ (∀ m1, (handleClient localId dec cache m).1 = RecvAction.forward m1 →
        0 < m.ttl ∧ m1.ttl = m.ttl - 1 ∧ 0 ≤ m1.ttl ∧ m1.ttl ≤ m.ttl)
    ∧ (∀ m1, (secureHandleClient localId enableAuth verify blobPk dec trust cache m).1
          = RecvAction.deliver m1 → m1.ttl = m.ttl ∧ 0 ≤ m1.ttl)
    ∧ (∀ m1, (secureHandleClient localId enableAuth verify blobPk dec trust cache m).1
          = RecvAction.forward m1 →
        0 < m.ttl ∧ m1.ttl = m.ttl - 1 ∧ 0 ≤ m1.ttl ∧ m1.ttl ≤ m.ttl) := by
  refine ⟨?_, ?_, ?_, ?_⟩ <;> intro m1 h1
  · rcases mesh_step_cases localId dec cache m with he | ⟨p, he⟩ | ⟨ht, p, he⟩ <;>
      rw [he] at h1
    · exact absurd h1 (by simp)
    · injection h1 with h2
      subst h2
      exact ⟨rfl, h⟩
    · exact absurd h1 (by simp)
  · rcases mesh_step_cases localId dec cache m with he | ⟨p, he⟩ | ⟨ht, p, he⟩ <;>
      rw [he] at h1
    · exact absurd h1 (by simp)
    · exact absurd h1 (by simp)
    · injection h1 with h2
      subst h2
      refine ⟨ht, rfl, ?_, ?_⟩
      · show 0 ≤ m.ttl - 1
        omega
      · show m.ttl - 1 ≤ m.ttl
        omega
  · rcases secure_step_cases localId enableAuth verify blobPk dec trust cache m with
      he | ⟨p, he⟩ | ⟨ht, p, he⟩ <;> rw [he] at h1
    · exact absurd h1 (by simp)
    · injection h1 with h2
      subst h2
      exact ⟨rfl, h⟩
    · exact absurd h1 (by simp)
  · rcases secure_step_cases localId enableAuth verify blobPk dec trust cache m with
      he | ⟨p, he⟩ | ⟨ht, p, he⟩ <;> rw [he] at h1
    · exact absurd h1 (by simp)
    · exact absurd h1 (by simp)
    · injection h1 with h2
      subst h2
      refine ⟨ht, rfl, ?_, ?_⟩
      · show 0 ≤ m.ttl - 1
        omega
      · show m.ttl - 1 ≤ m.ttl
        omega

theorem ttl_monotone_witness :
    0 < (Message.mk "m1" "A" "C" "x" 0 20 "text" ["A"]).ttl
    ∧ (Message.mk "m1" "A" "C" "x" 0 19 "text" ["A", "R"]).ttl
        = (Message.mk "m1" "A" "C" "x" 0 20 "text" ["A"]).ttl - 1
    ∧ 0 ≤ (Message.mk "m1" "A" "C" "x" 0 19 "text" ["A", "R"]).ttl
    ∧ (Message.mk "m1" "A" "C" "x" 0 19 "text" ["A", "R"]).ttl
        ≤ (Message.mk "m1" "A" "C" "x" 0 20 "text" ["A"]).ttl :=
  (ttl_monotone "R" (fun s => some s) [] (Message.mk "m1" "A" "C" "x" 0 20 "text" ["A"])
      false (fun _ => none) (fun _ => none) (TrustState.mk [] []) (by decide)).2.1
    (Message.mk "m1" "A" "C" "x" 0 19 "text" ["A", "R"]) (by decide)

/-- C4: `send_message` creates the envelope with `route = [local_id]` and
`source_id = local_id` (source first, trivially duplicate-free), and every
receive step that delivers or forwards appends exactly the local node id
to the route, preserving head-is-source and, when the local id is not yet
on the route (guaranteed operationally by the duplicate cache: each node
processes a msg_id at most once and the sender pre-caches its own),
distinctness. -/
theorem route_growth (localId msgId destId payload msgType : String) (ts : Int)
    (enc : String → String) (dec : String → Option String) (cache : List String)
    (m : Message) (hnotin : localId ∉ m.route) :
    (sendMessage localId msgId enc destId payload msgType ts).route = [localId]
    ∧ (sendMessage localId msgId enc destId payload msgType ts).source_id = localId
    ∧ (sendMessage localId msgId enc destId payload msgType ts).route.Nodup
    ∧ (∀ m1, (handleClient localId dec cache m).1 = RecvAction.deliver m1 ∨
          (handleClient localId dec cache m).1 = RecvAction.forward m1 →
        m1.route = m.route ++ [localId]
        ∧ m1.source_id = m.source_id
        ∧ (m.route.Nodup → m1.route.Nodup)
        ∧ (m.route.head? = some m.source_id → m1.route.head? = some m1.source_id)) := by
  refine ⟨rfl, rfl, by simp [sendMessage], ?_⟩
  intro m1 hm1
  have key : m1.route = m.route ++ [localId] ∧ m1.source_id = m.source_id := by
    rcases mesh_step_cases localId dec cache m with he | ⟨p, he⟩ | ⟨ht, p, he⟩ <;>
      rcases hm1 with h1 | h1 <;> rw [he] at h1
    · exact absurd h1 (by simp)
    · exact absurd h1 (by simp)
    · injection h1 with h2
      subst h2
      exact ⟨rfl, rfl⟩
    · exact absurd h1 (by simp)
    · exact absurd h1 (by simp)
    · injection h1 with h2
      subst h2
      exact ⟨rfl, rfl⟩
  refine ⟨key.1, key.2, ?_, ?_⟩
  · intro hnd
    rw [key.1]
    simp [List.nodup_append, hnotin, hnd]
  · intro hh
    rw [key.1, key.2]
    cases hr : m.route with
    | nil =>
      rw [hr] at hh
      simp at hh
    | cons a t =>
      rw [hr] at hh
      simp at hh
      simp [hh]

theorem route_growth_witness :
    "R" ∉ (Message.mk "m1" "A" "C" "x" 0 20 "text" ["A"]).route
    ∧ (sendMessage "R" "m2" (fun s => s) "C" "x" "text" 0).route = ["R"]
    ∧ (∀ m1, (handleClient "R" (fun s => some s) []
            (Message.mk "m1" "A" "C" "x" 0 20 "text" ["A"])).1 = RecvAction.deliver m1 ∨
          (handleClient "R" (fun s => some s) []
            (Message.mk "m1" "A" "C" "x" 0 20 "text" ["A"])).1 = RecvAction.forward m1 →
        m1.route = (Message.mk "m1" "A" "C" "x" 0 20 "text" ["A"]).route ++ ["R"]
        ∧ m1.source_id = (Message.mk "m1" "A" "C" "x" 0 20 "text" ["A"]).source_id
        ∧ ((Message.mk "m1" "A" "C" "x" 0 20 "text" ["A"]).route.Nodup → m1.route.Nodup)
        ∧ ((Message.mk "m1" "A" "C" "x" 0 20 "text" ["A"]).route.head?
              = some (Message.mk "m1" "A" "C" "x" 0 20 "text" ["A"]).source_id →
            m1.route.head? = some m1.source_id)) := by
  have h := route_growth "R" "m2" "C" "x" "text" 0 (fun s => s) (fun s => some s) []
    (Message.mk "m1" "A" "C" "x" 0 20 "text" ["A"]) (by decide)
  exact ⟨by decide, h.1, h.2.2.2⟩

/-- Counterexample to C1 as stated: at relay R, a fresh broadcast
envelope from A with ttl 20 > 0 takes the delivery branch only; the
handler does not forward it onward, so in the chain A-R-B node B never
receives it. -/
theorem broadcast_relay_counterexample :
    (handleClient "R" (fun s => some s) []
        (Message.mk "m1" "A" "broadcast" "ping" 0 20 "text" ["A"])).1
      = RecvAction.deliver (Message.mk "m1" "A" "broadcast" "ping" 0 20 "text" ["A", "R"])
    ∧ ¬ ∃ x, (handleClient "R" (fun s => some s) []
        (Message.mk "m1" "A" "broadcast" "ping" 0 20 "text" ["A"])).1
      = RecvAction.forward x := by
  have h1 : (handleClient "R" (fun s => some s) []
      (Message.mk "m1" "A" "broadcast" "ping" 0 20 "text" ["A"])).1
      = RecvAction.deliver (Message.mk "m1" "A" "broadcast" "ping" 0 20 "text" ["A", "R"]) := by
    decide
  refine ⟨h1, ?_⟩
  rintro ⟨x, hx⟩
  rw [h1] at hx
  exact absurd hx (by simp)

/-- C1 (amended): a node receiving a not-yet-seen, decryptable envelope
with `dest_id == "broadcast"` invokes the delivery callbacks with route
extended by the local id, and does not forward the envelope; the secure
handler likewise never forwards a broadcast envelope. -/
theorem broadcast_deliver_no_relay (localId : String) (dec : String → Option String)
    (cache : List String) (m : Message) (p : String) (enableAuth : Bool)
    (verify : String → Option (String × String)) (blobPk : String → Option String)
    (trust : TrustState)
    (hc : m.msg_id ∉ cache) (hdec : dec m.payload = some p)
    (hb : m.dest_id = "broadcast") :
    (handleClient localId dec cache m).1
      = RecvAction.deliver { m with payload := p, route := m.route ++ [localId] }
    ∧ (∀ x, (handleClient localId dec cache m).1 ≠ RecvAction.forward x)
    ∧ (∀ x, (secureHandleClient localId enableAuth verify blobPk dec trust cache m).1
          ≠ RecvAction.forward x) := by
  have h1 : (handleClient localId dec cache m).1
      = RecvAction.deliver { m with payload := p, route := m.route ++ [localId] } := by
    unfold handleClient
    simp [hc, hdec, hb]
  refine ⟨h1, ?_, ?_⟩
  · intro x
    rw [h1]
    simp
  · intro x
    unfold secureHandleClient
    cases enableAuth with
    | false => simp [hc, hdec, hb]
    | true =>
      cases hver : verify p with
      | none => simp [hc, hdec, hver]
      | some pr =>
        obtain ⟨orig, signer⟩ := pr
        by_cases hsig : signer = m.source_id
        · simp [hc, hdec, hver, hsig, hb]
        · simp [hc, hdec, hver, hsig]

theorem broadcast_deliver_no_relay_witness :
    (handleClient "R" (fun s => some s) []
        (Message.mk "m2" "A" "broadcast" "ping" 0 20 "text" ["A"])).1
      = RecvAction.deliver (Message.mk "m2" "A" "broadcast" "ping" 0 20 "text" ["A", "R"])
    ∧ (∀ x, (handleClient "R" (fun s => some s) []
        (Message.mk "m2" "A" "broadcast" "ping" 0 20 "text" ["A"])).1
          ≠ RecvAction.forward x)
    ∧ (∀ x, (secureHandleClient "R" false (fun _ => none) (fun _ => none) (fun s => some s)
        (TrustState.mk [] []) []
        (Message.mk "m2" "A" "broadcast" "ping" 0 20 "text" ["A"])).1
          ≠ RecvAction.forward x) :=
  broadcast_deliver_no_relay "R" (fun s => some s) []
    (Message.mk "m2" "A" "broadcast" "ping" 0 20 "text" ["A"]) "ping" false
    (fun _ => none) (fun _ => none) (TrustState.mk [] []) (by simp) rfl rfl

/-- C2 (code evaluated at the failing input): for a single-chunk
transfer, processing the same chunk a second time after completion leaves
`transfer_states` unchanged yet re-enters the completion branch: it
returns True again, writes the file again and fires the completion
callbacks again, contradicting the claimed idempotence. -/
theorem duplicate_chunk_refires_completion :
    (processChunk [] (FileChunk.mk "fid" "a.txt" 0 1 [104] 1)).1 = true
    ∧ (processChunk [] (FileChunk.mk "fid" "a.txt" 0 1 [104] 1)).2.2
        = some ("a.txt", [104])
    ∧ (processChunk (processChunk [] (FileChunk.mk "fid" "a.txt" 0 1 [104] 1)).2.1
        (FileChunk.mk "fid" "a.txt" 0 1 [104] 1)).1 = true
    ∧ (processChunk (processChunk [] (FileChunk.mk "fid" "a.txt" 0 1 [104] 1)).2.1
        (FileChunk.mk "fid" "a.txt" 0 1 [104] 1)).2.2 = some ("a.txt", [104])
    ∧ (processChunk (processChunk [] (FileChunk.mk "fid" "a.txt" 0 1 [104] 1)).2.1
        (FileChunk.mk "fid" "a.txt" 0 1 [104] 1)).2.1
        = (processChunk [] (FileChunk.mk "fid" "a.txt" 0 1 [104] 1)).2.1 := by
  decide

/-- C7: for every plaintext byte string (the UTF-8 encoding of the input
string) and every 16-byte IV, `decrypt(encrypt(x)) == x`: PKCS#7 padding,
AES-CBC (abstracted as an inverse pair of length-preserving block-mode
maps under the fixed derived key) and base64 (abstracted as an inverse
codec pair) compose to the identity, the final strip removing exactly the
padding bytes. -/
theorem encrypt_decrypt_roundtrip (cipherEnc cipherDec : List Nat → List Nat → List Nat)
    (b64encode b64decode : List Nat → List Nat) (iv pt : List Nat)
    (hb : ∀ l, b64decode (b64encode l) = l)
    (hcd : ∀ iv2 p, p.length % 16 = 0 → cipherDec iv2 (cipherEnc iv2 p) = p)
    (hiv : iv.length = 16) :
    decryptBytes cipherDec b64decode (encryptBytes cipherEnc b64encode iv pt) = some pt := by
  have hmod : pt.length % 16 < 16 := Nat.mod_lt _ (by norm_num)
  simp only [encryptBytes, decryptBytes]
  rw [hb]
  have hpadlen : (pkcs7pad pt).length % 16 = 0 := by
    simp only [pkcs7pad, List.length_append, List.length_replicate]
    omega
  rw [← hiv, List.take_left, List.drop_left, hcd iv _ hpadlen]
  set n := 16 - pt.length % 16 with hn
  have hn1 : 1 ≤ n := by omega
  have hsucc : n = (n - 1) + 1 := by omega
  have hrep : List.replicate n n = List.replicate (n - 1) n ++ [n] := by
    rw [show List.replicate n n = List.replicate ((n - 1) + 1) n from by rw [← hsucc],
      List.replicate_succ']
  have hpad : pkcs7pad pt = pt ++ List.replicate n n := by
    simp only [pkcs7pad, ← hn]
  have hlast : (pkcs7pad pt).getLast? = some n := by
    rw [show pkcs7pad pt = (pt ++ List.replicate (n - 1) n) ++ [n] by
      rw [hpad, hrep, List.append_assoc]]
    rw [List.getLast?_concat]
  rw [hlast]
  have hn0 : ¬ (n = 0) := by omega
  simp only [hn0, if_false, ite_false]
  have hlen : (pkcs7pad pt).length = pt.length + n := by
    rw [hpad, List.length_append, List.length_replicate]
  rw [hlen]
  have hsub : pt.length + n - n = pt.length := by omega
  rw [hsub, hpad, List.take_left]

theorem encrypt_decrypt_roundtrip_witness :
    decryptBytes (fun _ c => c) (fun l => l)
        (encryptBytes (fun _ p => p) (fun l => l) (List.replicate 16 0) [104, 105])
      = some [104, 105] :=
  encrypt_decrypt_roundtrip (fun _ p => p) (fun _ c => c) (fun l => l) (fun l => l)
    (List.replicate 16 0) [104, 105] (fun _ => rfl) (fun _ _ _ => rfl) (by simp)

/-! ## Router lemmas (C8) -/

theorem getA_mem_of_some {α β : Type} [DecidableEq α] (l : List (α × β)) (k : α) (v : β)
    (h : getA l k = some v) : (k, v) ∈ l := by
  induction l with
  | nil => simp [getA] at h
  | cons hd t ih =>
    obtain ⟨k1, v1⟩ := hd
    by_cases hk : k1 = k
    · subst hk
      simp [getA] at h
      simp [h]
    · simp [getA, hk] at h
      simp [ih h]

theorem wOf_nonneg (lat : List ((String × String) × Rat)) (node_id v : String)
    (hw : ∀ pr ∈ lat, 0 ≤ pr.2) : 0 ≤ wOf lat node_id v := by
  unfold wOf
  cases h : getA lat (node_id, v) with
  | none => norm_num
  | some q => exact hw _ (getA_mem_of_some _ _ _ h)

theorem getA_map_eq {γ : Type} (g : String → γ) (known : List NodeInfo) (v : String)
    (hv : v ∈ known.map NodeInfo.node_id) :
    getA (known.map fun nd => (nd.node_id, g nd.node_id)) v = some (g v) := by
  induction known with
  | nil => simp at hv
  | cons nd t ih =>
    by_cases hk : nd.node_id = v
    · subst hk
      simp [getA]
    · rw [List.map_cons, List.mem_cons] at hv
      rcases hv with h | h
      · exact absurd h.symm hk
      · simp [getA, hk, ih h]

theorem getA_map_none {γ : Type} (g : String → γ) (known : List NodeInfo) (v : String)
    (hv : v ∉ known.map NodeInfo.node_id) :
    getA (known.map fun nd => (nd.node_id, g nd.node_id)) v = none := by
  apply getA_eq_none_of_not_mem
  simpa [List.map_map, Function.comp] using hv

theorem graphStep_star (node_id : String) (lat : List ((String × String) × Rat))
    (done : List NodeInfo) (nd : NodeInfo)
    (hnodeid : nd.node_id ∉ done.map NodeInfo.node_id)
    (hne : node_id ≠ nd.node_id) :
    graphStep node_id lat (starGraph node_id done lat) nd
      = starGraph node_id (done ++ [nd]) lat := by
  unfold graphStep
  have hgL : getA (starGraph node_id done lat) node_id
      = some (starEdges node_id done lat) := by
    simp [starGraph, getA]
  rw [hgL]
  have hg1 : setA (starGraph node_id done lat) node_id
      (starEdges node_id done lat ++ [(nd.node_id, (getA lat (node_id, nd.node_id)).getD 1)])
      = (node_id, starEdges node_id done lat ++ [(nd.node_id, wOf lat node_id nd.node_id)])
        :: done.map (fun x => (x.node_id, [(node_id, wOf lat node_id x.node_id)])) := by
    simp [starGraph, setA, wOf]
  simp only [Option.getD_some]
  rw [hg1]
  have hgetn : getA ((node_id, starEdges node_id done lat
        ++ [(nd.node_id, wOf lat node_id nd.node_id)])
      :: done.map (fun x => (x.node_id, [(node_id, wOf lat node_id x.node_id)])))
      nd.node_id = none := by
    simp only [getA, if_neg hne]
    exact getA_map_none (fun s => [(node_id, wOf lat node_id s)]) done nd.node_id hnodeid
  rw [hgetn]
  simp only [Option.isSome_none, Bool.false_eq_true, if_false, ite_false]
  rw [setA_absent _ _ _ hgetn]
  have hget2 : getA (((node_id, starEdges node_id done lat
        ++ [(nd.node_id, wOf lat node_id nd.node_id)])
      :: done.map (fun x => (x.node_id, [(node_id, wOf lat node_id x.node_id)])))
      ++ [(nd.node_id, ([] : List (String × Rat)))]) nd.node_id = some [] := by
    rw [getA_append_right _ _ _ hgetn]
    simp [getA]
  rw [hget2, setA_append_last _ _ _ _ hgetn]
  simp only [Option.getD_some, List.nil_append, starGraph, starEdges, List.map_append,
    List.map_cons, List.map_nil, wOf]
  simp

theorem buildGraph_fold (node_id : String) (lat : List ((String × String) × Rat)) :
    ∀ (rest done : List NodeInfo),
    ((done ++ rest).map NodeInfo.node_id).Nodup →
    node_id ∉ (done ++ rest).map NodeInfo.node_id →
    List.foldl (graphStep node_id lat) (starGraph node_id done lat) rest
      = starGraph node_id (done ++ rest) lat := by
  intro rest
  induction rest with
  | nil =>
    intro done _ _
    simp
  | cons nd t ih =>
    intro done hnd hself
    have hnodeid : nd.node_id ∉ done.map NodeInfo.node_id := by
      intro hmem
      rw [List.map_append, List.nodup_append] at hnd
      exact hnd.2.2 hmem (by simp)
    have hne : node_id ≠ nd.node_id := by
      intro hh
      exact hself (by simp [hh])
    rw [List.foldl_cons, graphStep_star node_id lat done nd hnodeid hne]
    have := ih (done ++ [nd]) (by simpa using hnd) (by simpa using hself)
    simpa using this

theorem buildGraph_eq (node_id : String) (known : List NodeInfo)
    (lat : List ((String × String) × Rat))
    (hnd : (known.map NodeInfo.node_id).Nodup)
    (hself : node_id ∉ known.map NodeInfo.node_id) :
    buildGraph node_id known lat = starGraph node_id known lat := by
  have h := buildGraph_fold node_id lat known [] (by simpa using hnd) (by simpa using hself)
  simpa [buildGraph, starGraph, starEdges] using h

theorem getA_starGraph_source (node_id : String) (known : List NodeInfo)
    (lat : List ((String × String) × Rat)) :
    getA (starGraph node_id known lat) node_id = some (starEdges node_id known lat) := by
  simp [starGraph, getA]

theorem getA_starGraph_neighbor (node_id : String) (known : List NodeInfo)
    (lat : List ((String × String) × Rat)) (v : String)
    (hv : v ∈ known.map NodeInfo.node_id)
    (hself : node_id ∉ known.map NodeInfo.node_id) :
    getA (starGraph node_id known lat) v = some [(node_id, wOf lat node_id v)] := by
  have hne : node_id ≠ v := by
    intro hh
    exact hself (hh ▸ hv)
  simp only [starGraph, getA, if_neg hne]
  exact getA_map_eq (fun s => [(node_id, wOf lat node_id s)]) known v hv

theorem getA_starGraph_none (node_id : String) (known : List NodeInfo)
    (lat : List ((String × String) × Rat)) (u : String)
    (hu1 : u ≠ node_id) (hu2 : u ∉ known.map NodeInfo.node_id) :
    getA (starGraph node_id known lat) u = none := by
  simp only [starGraph, getA, if_neg (Ne.symm hu1)]
  exact getA_map_none (fun s => [(node_id, wOf lat node_id s)]) known u hu2

theorem relax_source_step (node_id : String) (lat : List ((String × String) × Rat))
    (done : List NodeInfo) (nd : NodeInfo)
    (hnodeid : nd.node_id ∉ done.map NodeInfo.node_id)
    (hne : node_id ≠ nd.node_id) :
    relax node_id 0 (starStateAfter node_id lat done)
        (nd.node_id, wOf lat node_id nd.node_id)
      = starStateAfter node_id lat (done ++ [nd]) := by
  unfold relax starStateAfter
  have hgd : getA ((node_id, (0:Rat)) ::
      done.map fun x => (x.node_id, wOf lat node_id x.node_id)) nd.node_id = none := by
    simp only [getA, if_neg hne]
    exact getA_map_none (fun s => wOf lat node_id s) done nd.node_id hnodeid
  rw [hgd]
  have hgh : getA ((node_id, (0:Nat)) :: done.map fun x => (x.node_id, 1)) node_id
      = some 0 := by
    simp [getA]
  have hgp : getA ((node_id, (none : Option String)) ::
      done.map fun x => (x.node_id, some node_id)) nd.node_id = none := by
    simp only [getA, if_neg hne]
    exact getA_map_none (fun _ => some node_id) done nd.node_id hnodeid
  simp only [dGetD, hgh, Option.getD_some]
  have hsetd : setA ((node_id, (0:Rat)) ::
      done.map fun x => (x.node_id, wOf lat node_id x.node_id)) nd.node_id
      (0 + wOf lat node_id nd.node_id)
      = (node_id, (0:Rat)) ::
        (done ++ [nd]).map fun x => (x.node_id, wOf lat node_id x.node_id) := by
    simp only [setA, if_neg hne]
    rw [setA_absent _ _ _ (getA_map_none (fun s => wOf lat node_id s) done nd.node_id hnodeid)]
    simp
  have hseth : setA ((node_id, (0:Nat)) :: done.map fun x => (x.node_id, 1)) nd.node_id
      (0 + 1) = (node_id, (0:Nat)) :: (done ++ [nd]).map fun x => (x.node_id, 1) := by
    simp only [setA, if_neg hne]
    rw [setA_absent _ _ _ (getA_map_none (fun _ => (1:Nat)) done nd.node_id hnodeid)]
    simp
  have hsetp : setA ((node_id, (none : Option String)) ::
      done.map fun x => (x.node_id, some node_id)) nd.node_id (some node_id)
      = (node_id, (none : Option String)) ::
        (done ++ [nd]).map fun x => (x.node_id, some node_id) := by
    simp only [setA, if_neg hne]
    rw [setA_absent _ _ _ (getA_map_none (fun _ => some node_id) done nd.node_id hnodeid)]
    simp
  rw [hsetd, hseth, hsetp]
  simp

theorem source_pass (node_id : String) (lat : List ((String × String) × Rat)) :
    ∀ (rest done : List NodeInfo),
    ((done ++ rest).map NodeInfo.node_id).Nodup →
    node_id ∉ (done ++ rest).map NodeInfo.node_id →
    List.foldl (relax node_id 0) (starStateAfter node_id lat done)
        (rest.map fun nd => (nd.node_id, wOf lat node_id nd.node_id))
      = starStateAfter node_id lat (done ++ rest) := by
  intro rest
  induction rest with
  | nil =>
    intro done _ _
    simp
  | cons nd t ih =>
    intro done hnd hself
    have hnodeid : nd.node_id ∉ done.map NodeInfo.node_id := by
      intro hmem
      rw [List.map_append, List.nodup_append] at hnd
      exact hnd.2.2 hmem (by simp)
    have hne : node_id ≠ nd.node_id := by
      intro hh
      exact hself (by simp [hh])
    rw [List.map_cons, List.foldl_cons,
      relax_source_step node_id lat done nd hnodeid hne]
    have := ih (done ++ [nd]) (by simpa using hnd) (by simpa using hself)
    simpa using this

theorem popMin_sub (l : List (Rat × String)) (x : Rat × String) (r : List (Rat × String))
    (h : popMin l = some (x, r)) : x ∈ l ∧ ∀ y ∈ r, y ∈ l := by
  induction l generalizing x r with
  | nil => simp [popMin] at h
  | cons a t ih =>
    unfold popMin at h
    cases hp : popMin t with
    | none =>
      rw [hp] at h
      simp at h
      obtain ⟨hx, hr⟩ := h
      subst hx
      subst hr
      exact ⟨by simp, by simp⟩
    | some pr =>
      obtain ⟨m0, r0⟩ := pr
      rw [hp] at h
      have hm := ih m0 r0 hp
      by_cases hle : pqLeB a m0 = true
      · simp [hle] at h
        obtain ⟨hx, hr⟩ := h
        subst hx
        subst hr
        exact ⟨by simp, fun y hy => by simp [hy]⟩
      · simp [hle] at h
        obtain ⟨hx, hr⟩ := h
        subst hx
        subst hr
        refine ⟨by simp [hm.1], ?_⟩
        intro y hy
        rcases List.mem_cons.mp hy with h1 | h1
        · simp [h1]
        · simp [hm.2 y h1]

theorem dijkstraLoop_succ (gr : Graph) (fuel : Nat) (s : DijkstraState) :
    dijkstraLoop gr (fuel + 1) s
      = match popMin s.pq with
        | none => s
        | some ((d, u), rest) =>
          let s1 : DijkstraState := { s with pq := rest }
          match getA s.distances u with
          | some du =>
            if du < d then dijkstraLoop gr fuel s1
            else dijkstraLoop gr fuel (processNode gr u d s1)
          | none => dijkstraLoop gr fuel (processNode gr u d s1) := rfl

theorem process_neighbor (node_id : String) (known : List NodeInfo)
    (lat : List ((String × String) × Rat)) (u : String) (d : Rat)
    (rest : List (Rat × String))
    (hu : u ∈ known.map NodeInfo.node_id)
    (hself : node_id ∉ known.map NodeInfo.node_id)
    (hd : 0 ≤ d) (hwu : 0 ≤ wOf lat node_id u) :
    processNode (starGraph node_id known lat) u d
        { starStateAfter node_id lat known with pq := rest }
      = { starStateAfter node_id lat known with pq := rest } := by
  unfold processNode
  rw [getA_starGraph_neighbor node_id known lat u hu hself]
  simp only [Option.getD_some, List.foldl_cons, List.foldl_nil]
  unfold relax
  have hgd : getA (starStateAfter node_id lat known).distances node_id = some 0 := by
    simp [starStateAfter, getA]
  have hnot : ¬ (d + wOf lat node_id u < 0) := by
    push_neg
    exact add_nonneg hd hwu
  simp [hgd, hnot]

theorem drain_pass (node_id : String) (known : List NodeInfo)
    (lat : List ((String × String) × Rat))
    (hself : node_id ∉ known.map NodeInfo.node_id)
    (hw : ∀ pr ∈ lat, 0 ≤ pr.2) :
    ∀ (fuel : Nat) (Q : List (Rat × String)),
    (∀ x ∈ Q, x.2 ∈ known.map NodeInfo.node_id ∧ x.1 = wOf lat node_id x.2) →
    (dijkstraLoop (starGraph node_id known lat) fuel
        { starStateAfter node_id lat known with pq := Q }).distances
      = (starStateAfter node_id lat known).distances
    ∧ (dijkstraLoop (starGraph node_id known lat) fuel
        { starStateAfter node_id lat known with pq := Q }).hop_counts
      = (starStateAfter node_id lat known).hop_counts
    ∧ (dijkstraLoop (starGraph node_id known lat) fuel
        { starStateAfter node_id lat known with pq := Q }).previous
      = (starStateAfter node_id lat known).previous := by
  intro fuel
  induction fuel with
  | zero =>
    intro Q hQ
    exact ⟨rfl, rfl, rfl⟩
  | succ f ih =>
    intro Q hQ
    rw [dijkstraLoop_succ]
    cases hpop : popMin ({ starStateAfter node_id lat known with pq := Q }).pq with
    | none => exact ⟨rfl, rfl, rfl⟩
    | some pr =>
      obtain ⟨⟨d, u⟩, rest⟩ := pr
      have hpop2 : popMin Q = some ((d, u), rest) := hpop
      have hsub := popMin_sub Q (d, u) rest hpop2
      have hu := (hQ _ hsub.1).1
      have hdw : d = wOf lat node_id u := (hQ _ hsub.1).2
      have hrest : ∀ x ∈ rest, x.2 ∈ known.map NodeInfo.node_id
          ∧ x.1 = wOf lat node_id x.2 := fun x hx => hQ x (hsub.2 x hx)
      have hgd : getA ({ starStateAfter node_id lat known with pq := Q }).distances u
          = some (wOf lat node_id u) := by
        have hne : node_id ≠ u := by
          intro hh
          exact hself (hh ▸ hu)
        simp only [starStateAfter, getA, if_neg hne]
        exact getA_map_eq (fun s => wOf lat node_id s) known u hu
      simp only [hgd]
      have hwu : 0 ≤ wOf lat node_id u := wOf_nonneg lat node_id u hw
      rw [if_neg (by rw [hdw]; exact lt_irrefl _)]
      have hpn : processNode (starGraph node_id known lat) u d
          { starStateAfter node_id lat known with pq := rest }
          = { starStateAfter node_id lat known with pq := rest } := by
        apply process_neighbor node_id known lat u d rest hu hself _ hwu
        rw [hdw]
        exact hwu
      have hs1 : ({ starStateAfter node_id lat known with pq := Q } : DijkstraState).pq
          = Q := rfl
      show (dijkstraLoop (starGraph node_id known lat) f
          (processNode (starGraph node_id known lat) u d
            { starStateAfter node_id lat known with pq := rest })).distances = _ ∧ _
      rw [hpn]
      exact ih rest hrest

theorem dijkstra_star (node_id : String) (known : List NodeInfo)
    (lat : List ((String × String) × Rat))
    (hnd : (known.map NodeInfo.node_id).Nodup)
    (hself : node_id ∉ known.map NodeInfo.node_id)
    (hw : ∀ pr ∈ lat, 0 ≤ pr.2) :
    (dijkstraLoop (starGraph node_id known lat) (known.length + 2)
        { distances := [(node_id, 0)], hop_counts := [(node_id, 0)],
          previous := [(node_id, none)], pq := [(0, node_id)] }).distances
      = (starStateAfter node_id lat known).distances
    ∧ (dijkstraLoop (starGraph node_id known lat) (known.length + 2)
        { distances := [(node_id, 0)], hop_counts := [(node_id, 0)],
          previous := [(node_id, none)], pq := [(0, node_id)] }).hop_counts
      = (starStateAfter node_id lat known).hop_counts
    ∧ (dijkstraLoop (starGraph node_id known lat) (known.length + 2)
        { distances := [(node_id, 0)], hop_counts := [(node_id, 0)],
          previous := [(node_id, none)], pq := [(0, node_id)] }).previous
      = (starStateAfter node_id lat known).previous := by
  have hstep : dijkstraLoop (starGraph node_id known lat) (known.length + 2)
      { distances := [(node_id, 0)], hop_counts := [(node_id, 0)],
        previous := [(node_id, none)], pq := [(0, node_id)] }
      = dijkstraLoop (starGraph node_id known lat) (known.length + 1)
        (starStateAfter node_id lat known) := by
    rw [show known.length + 2 = (known.length + 1) + 1 from rfl, dijkstraLoop_succ]
    have hpop : popMin [((0:Rat), node_id)] = some (((0:Rat), node_id), []) := rfl
    simp only [hpop]
    have hgd : getA [(node_id, (0:Rat))] node_id = some 0 := by simp [getA]
    simp only [hgd]
    rw [if_neg (lt_irrefl 0)]
    have hpn : processNode (starGraph node_id known lat) node_id 0
        { distances := [(node_id, 0)], hop_counts := [(node_id, 0)],
          previous := [(node_id, none)], pq := [] }
        = starStateAfter node_id lat known := by
      unfold processNode
      rw [getA_starGraph_source]
      simp only [Option.getD_some]
      have := source_pass node_id lat known [] (by simpa using hnd) (by simpa using hself)
      simpa [starEdges, starStateAfter] using this
    exact congrArg (dijkstraLoop (starGraph node_id known lat) (known.length + 1)) hpn
  rw [hstep]
  have hQ : ∀ x ∈ known.map fun nd => (wOf lat node_id nd.node_id, nd.node_id),
      x.2 ∈ known.map NodeInfo.node_id ∧ x.1 = wOf lat node_id x.2 := by
    intro x hx
    rcases List.mem_map.mp hx with ⟨nd, hnd2, hx2⟩
    subst hx2
    exact ⟨List.mem_map.mpr ⟨nd, hnd2, rfl⟩, rfl⟩
  have heq : starStateAfter node_id lat known
      = { starStateAfter node_id lat known with
          pq := known.map fun nd => (wOf lat node_id nd.node_id, nd.node_id) } := rfl
  rw [heq]
  exact drain_pass node_id known lat hself hw (known.length + 1) _ hQ

theorem tableStep_fold (node_id : String) (known : List NodeInfo)
    (lat : List ((String × String) × Rat)) :
    ∀ (rest done : List NodeInfo),
    ((done ++ rest).map NodeInfo.node_id).Nodup →
    node_id ∉ (done ++ rest).map NodeInfo.node_id →
    (∀ nd ∈ rest, nd.node_id ∈ known.map NodeInfo.node_id) →
    List.foldl
        (tableStep node_id (starStateAfter node_id lat known).hop_counts
          (starStateAfter node_id lat known).previous)
        (done.map fun nd => (nd.node_id,
          RouteInfo.mk nd.node_id nd.node_id 1 (wOf lat node_id nd.node_id)))
        (rest.map fun nd => (nd.node_id, wOf lat node_id nd.node_id))
      = (done ++ rest).map fun nd => (nd.node_id,
          RouteInfo.mk nd.node_id nd.node_id 1 (wOf lat node_id nd.node_id)) := by
  intro rest
  induction rest with
  | nil =>
    intro done _ _ _
    simp
  | cons nd t ih =>
    intro done hnd hselfdr hsub
    have hnodeid : nd.node_id ∉ done.map NodeInfo.node_id := by
      intro hmem
      rw [List.map_append, List.nodup_append] at hnd
      exact hnd.2.2 hmem (by simp)
    have hne : node_id ≠ nd.node_id := by
      intro hh
      exact hselfdr (by simp [hh])
    have hmemk : nd.node_id ∈ known.map NodeInfo.node_id := hsub nd (by simp)
    have hstep : tableStep node_id (starStateAfter node_id lat known).hop_counts
        (starStateAfter node_id lat known).previous
        (done.map fun x => (x.node_id,
          RouteInfo.mk x.node_id x.node_id 1 (wOf lat node_id x.node_id)))
        (nd.node_id, wOf lat node_id nd.node_id)
        = (done ++ [nd]).map fun x => (x.node_id,
          RouteInfo.mk x.node_id x.node_id 1 (wOf lat node_id x.node_id)) := by
      unfold tableStep
      rw [if_neg (Ne.symm hne)]
      have hprev : getA (starStateAfter node_id lat known).previous nd.node_id
          = some (some node_id) := by
        simp only [starStateAfter, getA, if_neg hne]
        exact getA_map_eq (fun _ => some node_id) known nd.node_id hmemk
      have hfnh : findNextHop node_id nd.node_id
          (starStateAfter node_id lat known).previous = some nd.node_id := by
        unfold findNextHop
        rw [hprev]
        have hlen : ((starStateAfter node_id lat known).previous).length + 1
            = (known.length + 1) + 1 := by
          simp [starStateAfter]
        rw [hlen]
        unfold walkBack
        have hpget : pGet (starStateAfter node_id lat known).previous nd.node_id
            = some node_id := by
          unfold pGet
          rw [hprev]
        rw [hpget]
        simp
      rw [hfnh]
      have hhop : dGetD (starStateAfter node_id lat known).hop_counts nd.node_id 0 = 1 := by
        unfold dGetD
        simp only [starStateAfter, getA, if_neg hne]
        rw [getA_map_eq (fun _ => (1:Nat)) known nd.node_id hmemk]
        rfl
      have hnone : getA (done.map fun x => (x.node_id,
          RouteInfo.mk x.node_id x.node_id 1 (wOf lat node_id x.node_id))) nd.node_id
          = none :=
        getA_map_none (fun s => RouteInfo.mk s s 1 (wOf lat node_id s)) done
          nd.node_id hnodeid
      show setA (done.map fun x => (x.node_id,
          RouteInfo.mk x.node_id x.node_id 1 (wOf lat node_id x.node_id))) nd.node_id
          (RouteInfo.mk nd.node_id nd.node_id
            (dGetD (starStateAfter node_id lat known).hop_counts nd.node_id 0)
            (wOf lat node_id nd.node_id)) = _
      rw [hhop, setA_absent _ _ _ hnone]
      simp
    rw [List.map_cons, List.foldl_cons, hstep]
    have := ih (done ++ [nd]) (by simpa using hnd) (by simpa using hselfdr)
      (fun x hx => hsub x (by simp [hx]))
    simpa using this

theorem buildTable_star (node_id : String) (known : List NodeInfo)
    (lat : List ((String × String) × Rat))
    (hnd : (known.map NodeInfo.node_id).Nodup)
    (hself : node_id ∉ known.map NodeInfo.node_id) :
    buildTable node_id (starStateAfter node_id lat known).distances
        (starStateAfter node_id lat known).hop_counts
        (starStateAfter node_id lat known).previous
      = known.map fun nd => (nd.node_id,
          RouteInfo.mk nd.node_id nd.node_id 1 (wOf lat node_id nd.node_id)) := by
  unfold buildTable
  have hd : (starStateAfter node_id lat known).distances
      = (node_id, 0) :: known.map fun nd => (nd.node_id, wOf lat node_id nd.node_id) := rfl
  rw [hd, List.foldl_cons]
  have h0 : tableStep node_id (starStateAfter node_id lat known).hop_counts
      (starStateAfter node_id lat known).previous [] (node_id, 0) = [] := by
    unfold tableStep
    simp
  rw [h0]
  have := tableStep_fold node_id known lat known [] (by simpa using hnd)
    (by simpa using hself) (fun nd hnd2 => List.mem_map.mpr ⟨nd, hnd2, rfl⟩)
  simpa using this

theorem starGraph_edge_cases (node_id : String) (known : List NodeInfo)
    (lat : List ((String × String) × Rat)) (u v : String) (w : Rat)
    (hself : node_id ∉ known.map NodeInfo.node_id)
    (he : hasEdge (starGraph node_id known lat) u v w) :
    (u = node_id ∧ v ∈ known.map NodeInfo.node_id ∧ w = wOf lat node_id v)
    ∨ (v = node_id ∧ u ∈ known.map NodeInfo.node_id ∧ w = wOf lat node_id u) := by
  unfold hasEdge at he
  by_cases hu : u = node_id
  · rw [hu, getA_starGraph_source] at he
    simp only [Option.getD_some, starEdges] at he
    rcases List.mem_map.mp he with ⟨nd, hnd, hvw⟩
    injection hvw with h1 h2
    subst h1
    subst h2
    exact Or.inl ⟨hu, List.mem_map.mpr ⟨nd, hnd, rfl⟩, rfl⟩
  · by_cases hmem : u ∈ known.map NodeInfo.node_id
    · rw [getA_starGraph_neighbor node_id known lat u hmem hself] at he
      simp at he
      exact Or.inr ⟨he.1, hmem, he.2⟩
    · rw [getA_starGraph_none node_id known lat u hu hmem] at he
      simp at he

theorem pathCost_nonneg (node_id : String) (known : List NodeInfo)
    (lat : List ((String × String) × Rat))
    (hself : node_id ∉ known.map NodeInfo.node_id)
    (hw : ∀ pr ∈ lat, 0 ≤ pr.2) (u t : String) (c : Rat)
    (hp : PathCost (starGraph node_id known lat) u t c) : 0 ≤ c := by
  induction hp with
  | nil => exact le_refl 0
  | cons he _ ih =>
    rcases starGraph_edge_cases node_id known lat _ _ _ hself he with
      ⟨_, _, hw2⟩ | ⟨_, _, hw2⟩ <;>
      exact add_nonneg (hw2 ▸ wOf_nonneg lat node_id _ hw) ih

theorem star_reach (node_id : String) (known : List NodeInfo)
    (lat : List ((String × String) × Rat)) (u t : String) (c : Rat)
    (hself : node_id ∉ known.map NodeInfo.node_id)
    (hp : PathCost (starGraph node_id known lat) u t c)
    (hu : u = node_id ∨ u ∈ known.map NodeInfo.node_id) :
    t = node_id ∨ t ∈ known.map NodeInfo.node_id := by
  induction hp with
  | nil => exact hu
  | cons he _ ih =>
    rcases starGraph_edge_cases node_id known lat _ _ _ hself he with
      ⟨_, hv, _⟩ | ⟨hv, _, _⟩
    · exact ih (Or.inr hv)
    · exact ih (Or.inl hv)

theorem star_lower (node_id : String) (known : List NodeInfo)
    (lat : List ((String × String) × Rat)) (n : String)
    (hn : n ∈ known.map NodeInfo.node_id)
    (hself : node_id ∉ known.map NodeInfo.node_id)
    (hw : ∀ pr ∈ lat, 0 ≤ pr.2) (u t : String) (c : Rat)
    (hp : PathCost (starGraph node_id known lat) u t c) :
    t = n → (u = n ∨ wOf lat node_id n ≤ c) := by
  induction hp with
  | nil => exact fun ht => Or.inl ht
  | cons he hp2 ih =>
    intro ht
    rcases ih ht with hvn | hc
    · rcases starGraph_edge_cases node_id known lat _ _ _ hself he with
        ⟨hu2, hv2, hw2⟩ | ⟨hv2, hu2, hw2⟩
      · refine Or.inr ?_
        rw [hw2, hvn]
        exact le_add_of_nonneg_right (pathCost_nonneg node_id known lat hself hw _ _ _ hp2)
      · exact absurd (hvn ▸ hn) (hv2 ▸ hself)
    · refine Or.inr (le_trans hc ?_)
      rcases starGraph_edge_cases node_id known lat _ _ _ hself he with
        ⟨_, _, hw2⟩ | ⟨_, _, hw2⟩ <;>
        exact le_add_of_nonneg_left (hw2 ▸ wOf_nonneg lat node_id _ hw)

/-- C8: on a duplicate-free neighbor list not containing the local id and
with nonnegative link latencies, `update_topology` produces a table whose
keys are exactly the neighbors (the destinations reachable from the local
node in the constructed star graph, the local node itself excepted), each
entry holding next_hop = the destination itself, hop_count = 1, and
total_latency = the link latency, which is the shortest-path distance in
the constructed graph; nodes outside the star are unreachable and absent. -/
theorem update_topology_routes (node_id : String) (known : List NodeInfo)
    (lat : List ((String × String) × Rat))
    (hnd : (known.map NodeInfo.node_id).Nodup)
    (hself : node_id ∉ known.map NodeInfo.node_id)
    (hw : ∀ pr ∈ lat, 0 ≤ pr.2) :
    updateTopology node_id known lat
      = known.map (fun nd => (nd.node_id,
          RouteInfo.mk nd.node_id nd.node_id 1 (wOf lat node_id nd.node_id)))
    ∧ (∀ nd ∈ known, PathCost (buildGraph node_id known lat) node_id nd.node_id
        (wOf lat node_id nd.node_id))
    ∧ (∀ nd ∈ known, ∀ c, PathCost (buildGraph node_id known lat) node_id nd.node_id c →
        wOf lat node_id nd.node_id ≤ c)
    ∧ (∀ x c, PathCost (buildGraph node_id known lat) node_id x c →
        x = node_id ∨ x ∈ known.map NodeInfo.node_id) := by
  have hbg := buildGraph_eq node_id known lat hnd hself
  refine ⟨?_, ?_, ?_, ?_⟩
  · show computeRoutes (known.length + 2) node_id (buildGraph node_id known lat) = _
    rw [hbg]
    obtain ⟨h1, h2, h3⟩ := dijkstra_star node_id known lat hnd hself hw
    show buildTable node_id
        (dijkstraLoop (starGraph node_id known lat) (known.length + 2)
          { distances := [(node_id, 0)], hop_counts := [(node_id, 0)],
            previous := [(node_id, none)], pq := [(0, node_id)] }).distances
        (dijkstraLoop (starGraph node_id known lat) (known.length + 2)
          { distances := [(node_id, 0)], hop_counts := [(node_id, 0)],
            previous := [(node_id, none)], pq := [(0, node_id)] }).hop_counts
        (dijkstraLoop (starGraph node_id known lat) (known.length + 2)
          { distances := [(node_id, 0)], hop_counts := [(node_id, 0)],
            previous := [(node_id, none)], pq := [(0, node_id)] }).previous
      = _
    rw [h1, h2, h3]
    exact buildTable_star node_id known lat hnd hself
  · intro nd hmem
    rw [hbg]
    have hedge : hasEdge (starGraph node_id known lat) node_id nd.node_id
        (wOf lat node_id nd.node_id) := by
      unfold hasEdge
      rw [getA_starGraph_source]
      simp only [Option.getD_some, starEdges]
      exact List.mem_map.mpr ⟨nd, hmem, rfl⟩
    have := PathCost.cons hedge (PathCost.nil nd.node_id)
    simpa using this
  · intro nd hmem c hp
    rw [hbg] at hp
    have hn : nd.node_id ∈ known.map NodeInfo.node_id := List.mem_map.mpr ⟨nd, hmem, rfl⟩
    rcases star_lower node_id known lat nd.node_id hn hself hw node_id nd.node_id c hp rfl
      with heq | hle
    · exact absurd (heq ▸ hn) hself
    · exact hle
  · intro x c hp
    rw [hbg] at hp
    exact star_reach node_id known lat node_id x c hself hp (Or.inl rfl)

/-- Witness for C8: one neighbor B at the default latency yields the
single-entry table routing B via B at hop count 1 and latency 1. -/
theorem update_topology_routes_witness :
    updateTopology "L" [NodeInfo.mk "B" "ip" 1 0 "hb"] []
      = [("B", RouteInfo.mk "B" "B" 1 (wOf [] "L" "B"))]
    ∧ (∀ nd ∈ [NodeInfo.mk "B" "ip" 1 0 "hb"],
        PathCost (buildGraph "L" [NodeInfo.mk "B" "ip" 1 0 "hb"] []) "L" nd.node_id
          (wOf [] "L" nd.node_id))
    ∧ (∀ nd ∈ [NodeInfo.mk "B" "ip" 1 0 "hb"], ∀ c,
        PathCost (buildGraph "L" [NodeInfo.mk "B" "ip" 1 0 "hb"] []) "L" nd.node_id c →
        wOf [] "L" nd.node_id ≤ c)
    ∧ (∀ x c, PathCost (buildGraph "L" [NodeInfo.mk "B" "ip" 1 0 "hb"] []) "L" x c →
        x = "L" ∨ x ∈ ["B"]) :=
  update_topology_routes "L" [NodeInfo.mk "B" "ip" 1 0 "hb"] []
    (by simp) (by simp) (by simp)
